import Mathlib

/-!
Verification of the client-side bucketed aggregation engine of the
welshare questionnaire-builder SDK.

The embedding follows the TypeScript source:

* `aggregations/time-buckets.ts` — `floorToBucket`, `advanceBucket`,
  `generateBucketRanges`, `bucketKey`.
* `aggregations/group-by.ts` — `aggregateBucketedCounts`.
* `aggregations/collection-stats.ts` — the `CollectionStats` facade
  (`questionnaireResponses`, `binaryUploads`), `resolveRange`.
* `apps/cli/src/commands/questionnaire-stats.ts` — `parseArgs`,
  `runQuestionnaireStats`.

Modelling conventions:

* Instants are epoch milliseconds as `Int`, exactly the value of
  `Date.prototype.getTime()`.  All source computation uses the UTC
  calendar, in which hours, days and weeks have fixed millisecond
  lengths, so the calendar mutators (`setUTCMinutes`, `setUTCHours`,
  `setUTCDate`) are exact integer arithmetic.  `%` and `/` on `Int`
  round toward negative infinity for positive literal divisors, which
  matches the UTC calendar flooring used by those mutators.
* `new Date(string)` (the host's ISO-8601 parser) is a parameter
  `parse : String → Option Int`; `none` models an Invalid Date (a NaN
  time value).  Every comparison of an Invalid Date with another date
  is false in JS, and `toISOString` on an Invalid Date throws
  `RangeError: Invalid time value`; both behaviours are reproduced
  below.  Concrete witnesses instantiate `parse` with a finite table
  of ISO strings and their epoch-millisecond values.
* Bucket boundaries are kept as instants rather than their ISO-string
  renderings: `toISOString` is injective on valid instants, so the
  string keys of the source are in bijection with the instants used
  here.
* A record is a finite map from field names to JS scalar values; an
  absent key models `undefined`.
* Thrown exceptions are `Except.error`.
-/

/-- Supported time-bucket granularities (`TimeBucket` in
`types/aggregation.ts`). -/
inductive TimeBucket
  | hour
  | day
  | week
deriving DecidableEq, Repr

/-- `floorToBucket` from `time-buckets.ts`.  `hour` zeroes
minutes/seconds/milliseconds; `day` zeroes the time of day (UTC
midnight); `week` zeroes the time of day and rolls back to the most
recent Monday.  `getUTCDay` is 0 = Sunday … 6 = Saturday and the epoch
day 1970-01-01 was a Thursday (`getUTCDay = 4`). -/
def floorToBucket (t : Int) (b : TimeBucket) : Int :=
  match b with
  | TimeBucket.hour => t - t % 3600000
  | TimeBucket.day => t - t % 86400000
  | TimeBucket.week =>
    let t0 := t - t % 86400000
    let dayOfWeek := (t0 / 86400000 + 4) % 7
    let diff := if dayOfWeek = 0 then 6 else dayOfWeek - 1
    t0 - diff * 86400000

/-- `advanceBucket` from `time-buckets.ts`: advance by one hour, one
calendar day or seven calendar days (all of fixed length in UTC). -/
def advanceBucket (t : Int) (b : TimeBucket) : Int :=
  match b with
  | TimeBucket.hour => t + 3600000
  | TimeBucket.day => t + 86400000
  | TimeBucket.week => t + 7 * 86400000

/-- The `while (cursor < to)` loop of `generateBucketRanges`, with an
explicit fuel bound to express termination structurally.  The fuel
chosen in `generateBucketRanges` dominates the iteration count, since
every iteration advances the cursor by at least one millisecond. -/
def generateBucketRangesAux (t : Int) (b : TimeBucket) : Nat → Int → List (Int × Int)
  | 0, _ => []
  | fuel + 1, cursor =>
    if cursor < t then
      (cursor, advanceBucket cursor b) :: generateBucketRangesAux t b fuel (advanceBucket cursor b)
    else []

/-- `generateBucketRanges` from `time-buckets.ts`: all
`[bucketStart, bucketEnd)` pairs from `floorToBucket from` while the
cursor is below `to`. -/
def generateBucketRanges (f t : Int) (b : TimeBucket) : List (Int × Int) :=
  generateBucketRangesAux t b ((t - floorToBucket f b).toNat + 1) (floorToBucket f b)

/-- A JS scalar value, as stored in a record field (numbers restricted
to integers; no record consulted by the engine carries a fractional
number). -/
inductive JsValue
  | str (s : String)
  | num (n : Int)
  | bool (b : Bool)
deriving DecidableEq, Repr

/-- JS `String(·)` coercion on a scalar. -/
def jsToString : JsValue → String
  | JsValue.str s => s
  | JsValue.num n => toString n
  | JsValue.bool b => if b then "true" else "false"

/-- A record (`NillionRecord`): a finite map from field names to
scalar values; a missing key models an `undefined` field. -/
def Record : Type := List (String × JsValue)

instance : DecidableEq Record := by
  unfold Record
  infer_instance

/-- Dynamic field access `r[field]`. -/
def getField (r : Record) (field : String) : Option JsValue :=
  (r.find? (fun p => p.1 == field)).map (fun p => p.2)

/-- `String(r[groupField] ?? "unknown")` — the group key of a record,
with the sentinel group for a missing field. -/
def groupKeyOf (r : Record) (groupField : String) : String :=
  match getField r groupField with
  | some v => jsToString v
  | none => "unknown"

/-- Lexicographic comparison of character lists. -/
def charListLe : List Char → List Char → Bool
  | [], _ => true
  | _ :: _, [] => false
  | a :: as, b :: bs =>
    if a.val < b.val then true
    else if b.val < a.val then false
    else charListLe as bs

/-- The default-comparator string order of `Array.prototype.sort()`:
lexicographic on code units (equal to code-point order for the
basic-multilingual-plane strings these records carry). -/
def jsStrLe (a b : String) : Bool := charListLe a.data b.data

/-- One cell of the dense result (`BucketedCount`), with bucket
boundaries kept as instants. -/
structure BucketedCount where
  bucketStart : Int
  bucketEnd : Int
  group : String
  count : Nat
deriving DecidableEq, Repr

/-- The value returned by `aggregateBucketedCounts`. -/
structure AggResult where
  buckets : List BucketedCount
  groups : List String
  totalCount : Nat
deriving DecidableEq, Repr

/-- The `counts` map of `group-by.ts`, keyed by the (bucket start,
group) pair.  The source keys it by the string
`bucketStartISO + "||" + group`; since all bucket starts of one call
render to ISO strings of equal length and `toISOString` is injective,
that composite string key is in bijection with the pair. -/
def CountMap : Type := Int × String → Option Nat

/-- `counts.set(key, v)`. -/
def mapSet (m : CountMap) (k : Int × String) (v : Nat) : CountMap :=
  fun q => if q = k then some v else m q

/-- `counts.get(key) ?? 0`. -/
def mapGetD (m : CountMap) (k : Int × String) : Nat :=
  (m k).getD 0

/-- The empty `Map`. -/
def emptyCountMap : CountMap := fun _ => none

/-- `Set.prototype.add` on an insertion-ordered set represented as a
duplicate-free list. -/
def setAdd (l : List String) (s : String) : List String :=
  if s ∈ l then l else l ++ [s]

/-- Step 1 of `aggregateBucketedCounts`: the distinct group values of
the full input record set, in first-occurrence order (a JS `Set`). -/
def seedSet (records : List Record) (groupField : String) : List String :=
  records.foldl (fun acc r => setAdd acc (groupKeyOf r groupField)) []

/-- The mutable state of the counting loop (step 3 of
`aggregateBucketedCounts`): the group set, the sorted group list, the
count accumulator and the running total. -/
structure AggState where
  groupSet : List String
  groups : List String
  counts : CountMap
  totalCount : Nat

/-- The body of the `for (const r of records)` counting loop.  A
record whose timestamp field is not a string is skipped.  A string
timestamp is parsed; an Invalid Date compares false against both range
bounds, so it is *not* skipped by the range check, and `bucketKey`
then throws `RangeError: Invalid time value` from `toISOString`.  An
in-range record increments its (bucket, group) cell and the total,
after back-filling a zero column if its group is new. -/
def countStep (parse : String → Option Int) (tsField groupField : String) (b : TimeBucket)
    (f t : Int) (ranges : List (Int × Int)) (st : AggState) (r : Record) :
    Except String AggState :=
  match getField r tsField with
  | some (JsValue.str ts) =>
    match parse ts with
    | none => Except.error "Invalid time value"
    | some d =>
      if d < f ∨ t ≤ d then Except.ok st
      else
        let bk := floorToBucket d b
        let gk := groupKeyOf r groupField
        let st1 :=
          if gk ∈ st.groupSet then st
          else
            { st with
              groupSet := st.groupSet ++ [gk]
              groups := List.insertionSort (fun a c => jsStrLe a c = true) (st.groups ++ [gk])
              counts := ranges.foldl (fun m rg => mapSet m (rg.1, gk) 0) st.counts }
        Except.ok
          { st1 with
            counts := mapSet st1.counts (bk, gk) (mapGetD st1.counts (bk, gk) + 1)
            totalCount := st1.totalCount + 1 }
  | _ => Except.ok st

/-- The counting loop itself, propagating a thrown exception. -/
def countLoop (parse : String → Option Int) (tsField groupField : String) (b : TimeBucket)
    (f t : Int) (ranges : List (Int × Int)) :
    AggState → List Record → Except String AggState
  | st, [] => Except.ok st
  | st, r :: rs =>
    match countStep parse tsField groupField b f t ranges st r with
    | Except.error e => Except.error e
    | Except.ok st1 => countLoop parse tsField groupField b f t ranges st1 rs

/-- Step 4 of `aggregateBucketedCounts`: flatten the accumulator into
the dense cell list, bucket-enumeration order outer, group list
inner. -/
def flattenCells (ranges : List (Int × Int)) (groups : List String) (m : CountMap) :
    List BucketedCount :=
  ranges.flatMap fun rg =>
    groups.map fun g =>
      { bucketStart := rg.1, bucketEnd := rg.2, group := g, count := mapGetD m (rg.1, g) }

/-- `aggregateBucketedCounts` from `group-by.ts`: seed group
discovery, dense skeleton, counting scan, flatten. -/
def aggregateBucketedCounts (parse : String → Option Int) (records : List Record)
    (tsField groupField : String) (b : TimeBucket) (f t : Int) : Except String AggResult :=
  let groupSet0 := seedSet records groupField
  let groups0 := List.insertionSort (fun a c => jsStrLe a c = true) groupSet0
  let ranges := generateBucketRanges f t b
  let counts0 :=
    ranges.foldl (fun m rg => groups0.foldl (fun m g => mapSet m (rg.1, g) 0) m) emptyCountMap
  (countLoop parse tsField groupField b f t ranges ⟨groupSet0, groups0, counts0, 0⟩ records).map
    fun st =>
      { buckets := flattenCells ranges st.groups st.counts,
        groups := st.groups, totalCount := st.totalCount }

/-! ## The stats facade (`collection-stats.ts`) -/

/-- A value of the `NillionFilter` map: either an exact-match scalar
(the facade only ever uses strings) or the operator object
`\x7b $gte, $lt \x7d` built for the time range (ISO strings modelled
by the instants they render). -/
inductive NillionFilterValue
  | str (s : String)
  | gteLt (gte lt : Int)
deriving DecidableEq, Repr

/-- `NillionFilter`: field name to filter condition. -/
abbrev NillionFilter : Type := List (String × NillionFilterValue)

/-- Well-known collection names (`COLLECTIONS` in `nillion/client.ts`). -/
def COLLECTIONS_QUESTIONNAIRE_RESPONSES : String := "questionnaire_responses"

/-- Well-known collection names (`COLLECTIONS` in `nillion/client.ts`). -/
def COLLECTIONS_BINARY_FILES : String := "binary_files"

/-- `QuestionnaireResponseStatsQuery`.  `groupBy` is a two-string
union in TS; it is modelled as a plain string. -/
structure QuestionnaireResponseStatsQuery where
  range : Option (Int × Int)
  bucket : Option TimeBucket
  groupBy : Option String
  applicationIds : Option (List String)
  publisherIds : Option (List String)
deriving DecidableEq, Repr

/-- `BinaryUploadStatsQuery`. -/
structure BinaryUploadStatsQuery where
  range : Option (Int × Int)
  bucket : Option TimeBucket
  groupBy : Option String
  uploaderDids : Option (List String)
  contentTypes : Option (List String)
deriving DecidableEq, Repr

/-- `CollectionStatsResult`, with the range kept as instants. -/
structure CollectionStatsResult where
  label : String
  rangeFrom : Int
  rangeTo : Int
  bucket : TimeBucket
  groupBy : String
  totalCount : Nat
  groups : List String
  buckets : List BucketedCount
deriving DecidableEq, Repr

/-- `resolveRange`/`defaultRange`: an omitted range defaults to the 24
hours ending now. -/
def resolveRange (now : Int) (range : Option (Int × Int)) : Int × Int :=
  match range with
  | none => (now - 24 * 60 * 60 * 1000, now)
  | some r => r

/-- The reader filter built by `questionnaireResponses`: the time
range predicate plus an equality predicate per identifier filter that
was supplied with exactly one value. -/
def buildQuestionnaireFilter (f t : Int) (q : QuestionnaireResponseStatsQuery) : NillionFilter :=
  [("submitted_at", NillionFilterValue.gteLt f t)]
    ++ (match q.applicationIds with
        | some [a] => [("application_id", NillionFilterValue.str a)]
        | _ => [])
    ++ (match q.publisherIds with
        | some [p] => [("publisher_id", NillionFilterValue.str p)]
        | _ => [])

/-- The reader filter built by `binaryUploads`. -/
def buildBinaryFilter (f t : Int) (q : BinaryUploadStatsQuery) : NillionFilter :=
  [("uploaded_at", NillionFilterValue.gteLt f t)]
    ++ (match q.uploaderDids with
        | some [u] => [("uploader_did", NillionFilterValue.str u)]
        | _ => [])
    ++ (match q.contentTypes with
        | some [c] => [("content_type", NillionFilterValue.str c)]
        | _ => [])

/-- The client-side multi-value fallback: when an identifier filter
holds more than one value, keep only records whose field is a member
of the value set (`ids.has(r.field)`; a missing or non-string field is
not a member of a set of strings). -/
def inMemoryIdFilter (idsOpt : Option (List String)) (field : String)
    (records : List Record) : List Record :=
  match idsOpt with
  | some ids =>
    if ids.length > 1 then
      records.filter fun r =>
        match getField r field with
        | some (JsValue.str s) => ids.contains s
        | _ => false
    else records
  | none => records

/-- `CollectionStats.questionnaireResponses`.  `reader` is the
abstract `NillionCollectionReader.findRecords` capability and `now`
the clock read by `defaultRange`. -/
def questionnaireResponses (reader : String → NillionFilter → List Record)
    (now : Int) (parse : String → Option Int) (q : QuestionnaireResponseStatsQuery) :
    Except String CollectionStatsResult :=
  let ft := resolveRange now q.range
  let bucket := q.bucket.getD TimeBucket.day
  let groupBy := q.groupBy.getD "application_id"
  let filter := buildQuestionnaireFilter ft.1 ft.2 q
  let records := reader COLLECTIONS_QUESTIONNAIRE_RESPONSES filter
  let records := inMemoryIdFilter q.applicationIds "application_id" records
  let records := inMemoryIdFilter q.publisherIds "publisher_id" records
  (aggregateBucketedCounts parse records "submitted_at" groupBy bucket ft.1 ft.2).map
    fun res =>
      { label := "Questionnaire responses", rangeFrom := ft.1, rangeTo := ft.2,
        bucket := bucket, groupBy := groupBy, totalCount := res.totalCount,
        groups := res.groups, buckets := res.buckets }

/-- `CollectionStats.binaryUploads`. -/
def binaryUploads (reader : String → NillionFilter → List Record)
    (now : Int) (parse : String → Option Int) (q : BinaryUploadStatsQuery) :
    Except String CollectionStatsResult :=
  let ft := resolveRange now q.range
  let bucket := q.bucket.getD TimeBucket.day
  let groupBy := q.groupBy.getD "uploader_did"
  let filter := buildBinaryFilter ft.1 ft.2 q
  let records := reader COLLECTIONS_BINARY_FILES filter
  let records := inMemoryIdFilter q.uploaderDids "uploader_did" records
  let records := inMemoryIdFilter q.contentTypes "content_type" records
  (aggregateBucketedCounts parse records "uploaded_at" groupBy bucket ft.1 ft.2).map
    fun res =>
      { label := "Binary file uploads", rangeFrom := ft.1, rangeTo := ft.2,
        bucket := bucket, groupBy := groupBy, totalCount := res.totalCount,
        groups := res.groups, buckets := res.buckets }

/-! ## The CLI command (`questionnaire-stats.ts`) -/

/-- CLI arguments of the `questionnaire-stats` command.  The `--from`
and `--to` strings are modelled as already-parsed instants, since the
claims checked here concern only the bucket/group-by validation. -/
structure QuestionnaireStatsArgs where
  fromArg : Option Int
  toArg : Option Int
  bucket : Option String
  groupBy : Option String
  applicationIds : Option (List String)
  publisherIds : Option (List String)
deriving DecidableEq, Repr

/-- The valid `--bucket` strings, in the order listed by `parseArgs`. -/
def validBuckets : List String := ["hour", "day", "week"]

/-- The valid `--group-by` strings, in the order listed by `parseArgs`. -/
def validGroupBys : List String := ["application_id", "publisher_id"]

/-- The `valid.includes(args.bucket)` membership check of `parseArgs`
together with the cast of the validated string to a `TimeBucket`. -/
def parseTimeBucket (s : String) : Option TimeBucket :=
  if s = "hour" then some TimeBucket.hour
  else if s = "day" then some TimeBucket.day
  else if s = "week" then some TimeBucket.week
  else none

/-- `parseArgs`: build the query from the CLI arguments, rejecting an
invalid `--bucket` or `--group-by` value with an error naming the
offending value and the allowed set. -/
def parseArgs (now : Int) (args : QuestionnaireStatsArgs) :
    Except String QuestionnaireResponseStatsQuery := do
  let range : Option (Int × Int) :=
    if args.fromArg.isSome || args.toArg.isSome then
      let t := args.toArg.getD now
      let f := args.fromArg.getD (t - 24 * 60 * 60 * 1000)
      some (f, t)
    else none
  let bucket : Option TimeBucket ←
    match args.bucket with
    | none => pure none
    | some s =>
      match parseTimeBucket s with
      | some b => pure (some b)
      | none =>
        Except.error ("Invalid bucket \"" ++ s ++ "\". Must be one of: hour, day, week")
  let groupBy : Option String ←
    match args.groupBy with
    | none => pure none
    | some g =>
      if g ∈ validGroupBys then pure (some g)
      else
        Except.error
          ("Invalid groupBy \"" ++ g ++ "\". Must be one of: application_id, publisher_id")
  let applicationIds :=
    match args.applicationIds with
    | some l => if l.length ≠ 0 then some l else none
    | none => none
  let publisherIds :=
    match args.publisherIds with
    | some l => if l.length ≠ 0 then some l else none
    | none => none
  pure { range := range, bucket := bucket, groupBy := groupBy,
         applicationIds := applicationIds, publisherIds := publisherIds }

/-- `runQuestionnaireStats`: parse the arguments, then run the facade
query.  The second component counts the reader fetches that the call
performs: zero when `parseArgs` throws, one otherwise (the facade
fetches exactly once). -/
def runQuestionnaireStats (reader : String → NillionFilter → List Record)
    (now : Int) (parse : String → Option Int) (args : QuestionnaireStatsArgs) :
    Except String CollectionStatsResult × Nat :=
  match parseArgs now args with
  | Except.error e => (Except.error e, 0)
  | Except.ok q => (questionnaireResponses reader now parse q, 1)

/-! ## Specification-side measures used in the theorem statements -/

/-- A record whose timestamp field holds a string that parses to an
instant inside `[f, t)` — exactly the records counted by step 3 of
the aggregation. -/
def validInRange (parse : String → Option Int) (tsField : String) (f t : Int)
    (r : Record) : Bool :=
  match getField r tsField with
  | some (JsValue.str s) =>
    match parse s with
    | some d => decide (f ≤ d) && decide (d < t)
    | none => false
  | _ => false

/-- The bucket key a record is counted into (an arbitrary value for a
record that is not valid-in-range; only used under `validInRange`). -/
def recordBucket (parse : String → Option Int) (tsField : String) (b : TimeBucket)
    (r : Record) : Int :=
  match getField r tsField with
  | some (JsValue.str s) =>
    match parse s with
    | some d => floorToBucket d b
    | none => 0
  | _ => 0

/-- The number of records counted into the cell `(k, g)`. -/
def matchCount (parse : String → Option Int) (tsField groupField : String) (b : TimeBucket)
    (f t : Int) (records : List Record) (k : Int) (g : String) : Nat :=
  (records.filter fun r =>
    validInRange parse tsField f t r
      && decide (recordBucket parse tsField b r = k)
      && decide (groupKeyOf r groupField = g)).length

/-- The number of records passing the range check of step 3. -/
def inRangeCount (parse : String → Option Int) (tsField : String) (f t : Int)
    (records : List Record) : Nat :=
  (records.filter (validInRange parse tsField f t)).length

/-- A concrete stand-in for the host ISO-8601 parser, used by the
concrete witnesses: a finite table of ISO strings and their
epoch-millisecond values. -/
def sampleParse : String → Option Int := fun s =>
  (([("2025-06-01T00:00:00.000Z", (1748736000000 : Int)),
     ("2025-06-01T10:00:00.000Z", 1748772000000),
     ("2025-06-02T01:00:00.000Z", 1748826000000),
     ("2025-06-02T23:00:00.000Z", 1748905200000),
     ("2025-06-05T12:00:00.000Z", 1749124800000)].find?
      (fun p => p.1 == s)).map (fun p => p.2))

/-! ## Bucket calculus lemmas -/

/-- The fixed millisecond length of one bucket step. -/
def bucketStepMs : TimeBucket → Int
  | TimeBucket.hour => 3600000
  | TimeBucket.day => 86400000
  | TimeBucket.week => 604800000

/-- The offset of the bucket boundaries from the epoch: hours and days
are aligned with the epoch, weeks with Monday 1970-01-05. -/
def bucketOffsetMs : TimeBucket → Int
  | TimeBucket.hour => 0
  | TimeBucket.day => 0
  | TimeBucket.week => 345600000

theorem floorToBucket_normal (t : Int) (b : TimeBucket) :
    floorToBucket t b = t - (t - bucketOffsetMs b) % bucketStepMs b := by
  cases b
  · simp only [floorToBucket, bucketOffsetMs, bucketStepMs]
    omega
  · simp only [floorToBucket, bucketOffsetMs, bucketStepMs]
    omega
  · simp only [floorToBucket, bucketOffsetMs, bucketStepMs]
    split <;> omega

theorem advanceBucket_normal (t : Int) (b : TimeBucket) :
    advanceBucket t b = t + bucketStepMs b := by
  cases b <;> simp [advanceBucket, bucketStepMs]

theorem floorToBucket_le (t : Int) (b : TimeBucket) : floorToBucket t b ≤ t := by
  have h := floorToBucket_normal t b
  cases b <;> simp only [bucketStepMs, bucketOffsetMs] at h <;> omega

theorem floorToBucket_floor (t : Int) (b : TimeBucket) :
    floorToBucket (floorToBucket t b) b = floorToBucket t b := by
  have h1 := floorToBucket_normal t b
  have h2 := floorToBucket_normal (floorToBucket t b) b
  cases b <;> simp only [bucketStepMs, bucketOffsetMs] at h1 h2 <;> omega

theorem floorToBucket_mono (s t : Int) (b : TimeBucket) (h : s ≤ t) :
    floorToBucket s b ≤ floorToBucket t b := by
  have h1 := floorToBucket_normal s b
  have h2 := floorToBucket_normal t b
  cases b <;> simp only [bucketStepMs, bucketOffsetMs] at h1 h2 <;> omega

theorem le_advanceBucket (c : Int) (b : TimeBucket) : c + 1 ≤ advanceBucket c b := by
  have h := advanceBucket_normal c b
  cases b <;> simp only [bucketStepMs] at h <;> omega

theorem lt_advanceBucket (c : Int) (b : TimeBucket) : c < advanceBucket c b := by
  have h := le_advanceBucket c b
  omega

theorem advanceBucket_floored (c : Int) (b : TimeBucket) (h : floorToBucket c b = c) :
    floorToBucket (advanceBucket c b) b = advanceBucket c b := by
  have h1 := floorToBucket_normal c b
  have h2 := floorToBucket_normal (advanceBucket c b) b
  have h3 := advanceBucket_normal c b
  cases b <;> simp only [bucketStepMs, bucketOffsetMs] at h1 h2 h3 <;> omega

theorem advanceBucket_le_of_floored_lt (x y : Int) (b : TimeBucket)
    (hx : floorToBucket x b = x) (hy : floorToBucket y b = y) (hlt : x < y) :
    advanceBucket x b ≤ y := by
  have h1 := floorToBucket_normal x b
  have h2 := floorToBucket_normal y b
  have h3 := advanceBucket_normal x b
  cases b <;> simp only [bucketStepMs, bucketOffsetMs] at h1 h2 h3 <;> omega

theorem generateBucketRangesAux_nil (t : Int) (b : TimeBucket) (fuel : Nat) (c : Int)
    (h : t ≤ c) : generateBucketRangesAux t b fuel c = [] := by
  cases fuel with
  | zero => rfl
  | succ n =>
    simp only [generateBucketRangesAux]
    rw [if_neg]
    omega

theorem generateBucketRangesAux_mem (t : Int) (b : TimeBucket) :
    ∀ (fuel : Nat) (c : Int), ∀ p ∈ generateBucketRangesAux t b fuel c,
      c ≤ p.1 ∧ p.1 < t ∧ p.2 = advanceBucket p.1 b := by
  intro fuel
  induction fuel with
  | zero => intro c p hp; simp [generateBucketRangesAux] at hp
  | succ n ih =>
    intro c p hp
    simp only [generateBucketRangesAux] at hp
    by_cases hc : c < t
    · rw [if_pos hc] at hp
      rcases List.mem_cons.mp hp with h | h
      · subst h; exact ⟨le_refl _, hc, rfl⟩
      · have := ih (advanceBucket c b) p h
        have hadv := lt_advanceBucket c b
        exact ⟨by omega, this.2.1, this.2.2⟩
    · rw [if_neg hc] at hp
      simp at hp

theorem generateBucketRangesAux_head (t : Int) (b : TimeBucket) (fuel : Nat) (c : Int) :
    generateBucketRangesAux t b fuel c = [] ∨
      (generateBucketRangesAux t b fuel c).head? = some (c, advanceBucket c b) := by
  cases fuel with
  | zero => left; rfl
  | succ n =>
    by_cases hc : c < t
    · right; simp [generateBucketRangesAux, hc]
    · left; simp [generateBucketRangesAux, hc]

theorem generateBucketRangesAux_chain (t : Int) (b : TimeBucket) :
    ∀ (fuel : Nat) (c : Int),
      List.Chain' (fun p q : Int × Int => p.2 = q.1) (generateBucketRangesAux t b fuel c) := by
  intro fuel
  induction fuel with
  | zero => intro c; simp [generateBucketRangesAux]
  | succ n ih =>
    intro c
    by_cases hc : c < t
    · simp only [generateBucketRangesAux, if_pos hc]
      refine List.chain'_cons'.mpr ⟨?_, ih (advanceBucket c b)⟩
      intro q hq
      rcases generateBucketRangesAux_head t b n (advanceBucket c b) with h | h
      · rw [h] at hq; simp at hq
      · rw [h] at hq
        simp only [Option.mem_def, Option.some.injEq] at hq
        subst hq
        rfl
    · simp [generateBucketRangesAux, hc]

theorem generateBucketRangesAux_pairwise (t : Int) (b : TimeBucket) :
    ∀ (fuel : Nat) (c : Int),
      List.Pairwise (fun p q : Int × Int => p.1 < q.1) (generateBucketRangesAux t b fuel c) := by
  intro fuel
  induction fuel with
  | zero => intro c; simp [generateBucketRangesAux]
  | succ n ih =>
    intro c
    by_cases hc : c < t
    · simp only [generateBucketRangesAux, if_pos hc]
      refine List.pairwise_cons.mpr ⟨?_, ih (advanceBucket c b)⟩
      intro q hq
      have := (generateBucketRangesAux_mem t b n (advanceBucket c b) q hq).1
      have := lt_advanceBucket c b
      simp only
      omega
    · simp [generateBucketRangesAux, hc]

theorem generateBucketRangesAux_getLast (t : Int) (b : TimeBucket) :
    ∀ (fuel : Nat) (c : Int), (t - c).toNat < fuel → c < t →
      ∃ p, (generateBucketRangesAux t b fuel c).getLast? = some p ∧ t ≤ p.2 := by
  intro fuel
  induction fuel with
  | zero => intro c h hc; omega
  | succ n ih =>
    intro c h hc
    simp only [generateBucketRangesAux, if_pos hc]
    by_cases hadv : advanceBucket c b < t
    · have hstep := le_advanceBucket c b
      have hfuel : (t - advanceBucket c b).toNat < n := by omega
      obtain ⟨p, hp, hpt⟩ := ih (advanceBucket c b) hfuel hadv
      cases haux : generateBucketRangesAux t b n (advanceBucket c b) with
      | nil => rw [haux] at hp; simp at hp
      | cons q l' =>
        rw [haux] at hp
        refine ⟨p, ?_, hpt⟩
        rw [List.getLast?_cons_cons]
        exact hp
    · rw [generateBucketRangesAux_nil t b n (advanceBucket c b) (by omega)]
      exact ⟨(c, advanceBucket c b), rfl, by omega⟩

theorem generateBucketRangesAux_mem_start (t : Int) (b : TimeBucket) (x : Int)
    (hx : floorToBucket x b = x) (hxt : x < t) :
    ∀ (fuel : Nat) (c : Int), (t - c).toNat < fuel → floorToBucket c b = c → c ≤ x →
      ∃ rg ∈ generateBucketRangesAux t b fuel c, rg.1 = x := by
  intro fuel
  induction fuel with
  | zero => intro c h hc hcx; omega
  | succ n ih =>
    intro c h hc hcx
    have hct : c < t := by omega
    simp only [generateBucketRangesAux, if_pos hct]
    by_cases hcex : c = x
    · exact ⟨(c, advanceBucket c b), List.mem_cons_self _ _, hcex⟩
    · have hlt : c < x := by omega
      have hadv : advanceBucket c b ≤ x := advanceBucket_le_of_floored_lt c x b hc hx hlt
      have hstep := le_advanceBucket c b
      have hfuel : (t - advanceBucket c b).toNat < n := by omega
      obtain ⟨rg, hrg, hrgx⟩ :=
        ih (advanceBucket c b) hfuel (advanceBucket_floored c b hc) hadv
      exact ⟨rg, List.mem_cons_of_mem _ hrg, hrgx⟩

theorem generateBucketRanges_mem (f t : Int) (b : TimeBucket) :
    ∀ p ∈ generateBucketRanges f t b, floorToBucket f b ≤ p.1 ∧ p.1 < t ∧
      p.2 = advanceBucket p.1 b := by
  intro p hp
  exact generateBucketRangesAux_mem t b _ _ p hp

theorem generateBucketRanges_chain (f t : Int) (b : TimeBucket) :
    List.Chain' (fun p q : Int × Int => p.2 = q.1) (generateBucketRanges f t b) :=
  generateBucketRangesAux_chain t b _ _

theorem generateBucketRanges_pairwise (f t : Int) (b : TimeBucket) :
    List.Pairwise (fun p q : Int × Int => p.1 < q.1) (generateBucketRanges f t b) :=
  generateBucketRangesAux_pairwise t b _ _

theorem generateBucketRanges_eq_nil (f t : Int) (b : TimeBucket)
    (h : t ≤ floorToBucket f b) : generateBucketRanges f t b = [] :=
  generateBucketRangesAux_nil t b _ _ h

theorem generateBucketRanges_mem_start (f t : Int) (b : TimeBucket) (d : Int)
    (hfd : f ≤ d) (hdt : d < t) :
    ∃ rg ∈ generateBucketRanges f t b, rg.1 = floorToBucket d b := by
  apply generateBucketRangesAux_mem_start t b (floorToBucket d b)
    (floorToBucket_floor d b)
    (by have := floorToBucket_le d b; omega)
  · omega
  · exact floorToBucket_floor f b
  · exact floorToBucket_mono f d b hfd

/-! ## Aggregation engine lemmas -/

theorem setAdd_mem (l : List String) (s a : String) : a ∈ setAdd l s ↔ a ∈ l ∨ a = s := by
  unfold setAdd
  split
  · rename_i h
    constructor
    · exact fun ha => Or.inl ha
    · rintro (ha | rfl)
      · exact ha
      · exact h
  · simp

theorem setAdd_nodup (l : List String) (s : String) (h : l.Nodup) : (setAdd l s).Nodup := by
  unfold setAdd
  split
  · exact h
  · rename_i hs
    simpa using List.Nodup.append h (List.nodup_singleton s) (by simpa using hs)

theorem seedSet_foldl_mem (groupField : String) :
    ∀ (l : List Record) (acc : List String) (a : String),
      a ∈ l.foldl (fun acc r => setAdd acc (groupKeyOf r groupField)) acc ↔
        a ∈ acc ∨ ∃ r ∈ l, groupKeyOf r groupField = a := by
  intro l
  induction l with
  | nil => intro acc a; simp
  | cons r rs ih =>
    intro acc a
    simp only [List.foldl_cons]
    rw [ih]
    rw [setAdd_mem]
    constructor
    · rintro ((ha | ha) | ⟨r', hr', ha⟩)
      · exact Or.inl ha
      · exact Or.inr ⟨r, List.mem_cons_self r rs, ha.symm⟩
      · exact Or.inr ⟨r', List.mem_cons_of_mem r hr', ha⟩
    · rintro (ha | ⟨r', hr', ha⟩)
      · exact Or.inl (Or.inl ha)
      · rcases List.mem_cons.mp hr' with rfl | hr'
        · exact Or.inl (Or.inr ha.symm)
        · exact Or.inr ⟨r', hr', ha⟩

theorem seedSet_mem (records : List Record) (groupField : String) (a : String) :
    a ∈ seedSet records groupField ↔ ∃ r ∈ records, groupKeyOf r groupField = a := by
  unfold seedSet
  rw [seedSet_foldl_mem]
  simp

theorem seedSet_nodup (records : List Record) (groupField : String) :
    (seedSet records groupField).Nodup := by
  unfold seedSet
  generalize hacc : ([] : List String) = acc
  have hnd : acc.Nodup := by rw [← hacc]; exact List.nodup_nil
  clear hacc
  induction records generalizing acc with
  | nil => exact hnd
  | cons r rs ih => exact ih _ (setAdd_nodup _ _ hnd)

theorem mapGetD_mapSet (m : CountMap) (k k' : Int × String) (v : Nat) :
    mapGetD (mapSet m k v) k' = if k' = k then v else mapGetD m k' := by
  unfold mapGetD mapSet
  split <;> rfl

theorem skeleton_inner_getD (s : Int) (groups : List String) :
    ∀ (m : CountMap), (∀ k, mapGetD m k = 0) →
      ∀ k, mapGetD (groups.foldl (fun m g => mapSet m (s, g) 0) m) k = 0 := by
  induction groups with
  | nil => intro m hm k; exact hm k
  | cons g gs ih =>
    intro m hm k
    simp only [List.foldl_cons]
    apply ih
    intro k'
    rw [mapGetD_mapSet]
    split
    · rfl
    · exact hm k'

theorem skeleton_getD (ranges : List (Int × Int)) (groups : List String) :
    ∀ k, mapGetD
      (ranges.foldl (fun m rg => groups.foldl (fun m g => mapSet m (rg.1, g) 0) m)
        emptyCountMap) k = 0 := by
  generalize hm : emptyCountMap = m
  have h0 : ∀ k, mapGetD m k = 0 := by rw [← hm]; intro k; rfl
  clear hm
  induction ranges generalizing m with
  | nil => exact h0
  | cons rg rgs ih =>
    simp only [List.foldl_cons]
    exact ih _ (skeleton_inner_getD rg.1 groups m h0)

theorem countStep_ok_skip (parse : String → Option Int) (tsField groupField : String)
    (b : TimeBucket) (f t : Int) (ranges : List (Int × Int)) (st : AggState) (r : Record)
    (hv : validInRange parse tsField f t r = false)
    (hwf : ∀ s, getField r tsField = some (JsValue.str s) → (parse s).isSome) :
    countStep parse tsField groupField b f t ranges st r = Except.ok st := by
  unfold countStep
  unfold validInRange at hv
  cases hts : getField r tsField with
  | none => rfl
  | some v =>
    cases v with
    | str s =>
      rw [hts] at hv
      cases hp : parse s with
      | none => have := hwf s hts; rw [hp] at this; simp at this
      | some d =>
        simp only [hp] at hv ⊢
        simp at hv
        rw [if_pos (by omega)]
    | num n => rfl
    | bool c => rfl

theorem countStep_ok_count (parse : String → Option Int) (tsField groupField : String)
    (b : TimeBucket) (f t : Int) (ranges : List (Int × Int)) (st : AggState) (r : Record)
    (s : String) (d : Int)
    (hts : getField r tsField = some (JsValue.str s)) (hp : parse s = some d)
    (hd : ¬(d < f ∨ t ≤ d)) (hgk : groupKeyOf r groupField ∈ st.groupSet) :
    countStep parse tsField groupField b f t ranges st r =
      Except.ok
        { st with
          counts := mapSet st.counts (floorToBucket d b, groupKeyOf r groupField)
            (mapGetD st.counts (floorToBucket d b, groupKeyOf r groupField) + 1)
          totalCount := st.totalCount + 1 } := by
  unfold countStep
  simp only [hts, hp, if_neg hd, if_pos hgk]

theorem validInRange_true_shape (parse : String → Option Int) (tsField : String)
    (f t : Int) (r : Record) (s : String) (d : Int)
    (hts : getField r tsField = some (JsValue.str s)) (hp : parse s = some d)
    (hd : ¬(d < f ∨ t ≤ d)) : validInRange parse tsField f t r = true := by
  unfold validInRange
  simp only [hts, hp, Bool.and_eq_true, decide_eq_true_eq]
  omega

theorem recordBucket_shape (parse : String → Option Int) (tsField : String) (b : TimeBucket)
    (r : Record) (s : String) (d : Int)
    (hts : getField r tsField = some (JsValue.str s)) (hp : parse s = some d) :
    recordBucket parse tsField b r = floorToBucket d b := by
  unfold recordBucket
  simp only [hts, hp]

theorem matchCount_cons_skip (parse : String → Option Int) (tsField groupField : String)
    (b : TimeBucket) (f t : Int) (r : Record) (rs : List Record) (k : Int) (g : String)
    (hv : validInRange parse tsField f t r = false) :
    matchCount parse tsField groupField b f t (r :: rs) k g =
      matchCount parse tsField groupField b f t rs k g := by
  unfold matchCount
  rw [List.filter_cons, if_neg (by simp [hv])]

theorem inRangeCount_cons_skip (parse : String → Option Int) (tsField : String)
    (f t : Int) (r : Record) (rs : List Record)
    (hv : validInRange parse tsField f t r = false) :
    inRangeCount parse tsField f t (r :: rs) = inRangeCount parse tsField f t rs := by
  unfold inRangeCount
  rw [List.filter_cons, if_neg (by simp [hv])]

theorem matchCount_cons_count (parse : String → Option Int) (tsField groupField : String)
    (b : TimeBucket) (f t : Int) (r : Record) (rs : List Record) (k : Int) (g : String)
    (hv : validInRange parse tsField f t r = true) :
    matchCount parse tsField groupField b f t (r :: rs) k g =
      (if recordBucket parse tsField b r = k ∧ groupKeyOf r groupField = g then 1 else 0) +
        matchCount parse tsField groupField b f t rs k g := by
  unfold matchCount
  rw [List.filter_cons]
  by_cases h : recordBucket parse tsField b r = k ∧ groupKeyOf r groupField = g
  · rw [if_pos (by simp [hv, h.1, h.2]), if_pos h]
    simp [Nat.add_comm]
  · rw [if_neg (by simp [hv]; intro h1 h2; exact absurd ⟨h1, h2⟩ h), if_neg h]
    simp

theorem inRangeCount_cons_count (parse : String → Option Int) (tsField : String)
    (f t : Int) (r : Record) (rs : List Record)
    (hv : validInRange parse tsField f t r = true) :
    inRangeCount parse tsField f t (r :: rs) = inRangeCount parse tsField f t rs + 1 := by
  unfold inRangeCount
  rw [List.filter_cons, if_pos (by simp [hv])]
  simp [Nat.add_comm]

theorem countLoop_ok_spec (parse : String → Option Int) (tsField groupField : String)
    (b : TimeBucket) (f t : Int) (ranges : List (Int × Int)) :
    ∀ (rest : List Record) (st st' : AggState),
      countLoop parse tsField groupField b f t ranges st rest = Except.ok st' →
      (∀ r ∈ rest, groupKeyOf r groupField ∈ st.groupSet) →
      st'.groupSet = st.groupSet ∧ st'.groups = st.groups ∧
      (∀ k g, mapGetD st'.counts (k, g) =
        mapGetD st.counts (k, g) + matchCount parse tsField groupField b f t rest k g) ∧
      st'.totalCount = st.totalCount + inRangeCount parse tsField f t rest := by
  intro rest
  induction rest with
  | nil =>
    intro st st' h hsub
    simp only [countLoop] at h
    cases h
    simp [matchCount, inRangeCount]
  | cons r rs ih =>
    intro st st' h hsub
    simp only [countLoop] at h
    cases hts : getField r tsField with
    | none =>
      have hv : validInRange parse tsField f t r = false := by
        unfold validInRange; rw [hts]
      rw [countStep_ok_skip parse tsField groupField b f t ranges st r hv
        (by intro s hs; rw [hts] at hs; cases hs)] at h
      obtain ⟨h1, h2, h3, h4⟩ := ih st st' h (fun r' hr' => hsub r' (List.mem_cons_of_mem _ hr'))
      refine ⟨h1, h2, fun k g => ?_, ?_⟩
      · rw [h3 k g, matchCount_cons_skip parse tsField groupField b f t r rs k g hv]
      · rw [h4, inRangeCount_cons_skip parse tsField f t r rs hv]
    | some v =>
      cases v with
      | num n =>
        have hv : validInRange parse tsField f t r = false := by
          unfold validInRange; rw [hts]
        rw [countStep_ok_skip parse tsField groupField b f t ranges st r hv
          (by intro s hs; rw [hts] at hs; cases hs)] at h
        obtain ⟨h1, h2, h3, h4⟩ := ih st st' h (fun r' hr' => hsub r' (List.mem_cons_of_mem _ hr'))
        refine ⟨h1, h2, fun k g => ?_, ?_⟩
        · rw [h3 k g, matchCount_cons_skip parse tsField groupField b f t r rs k g hv]
        · rw [h4, inRangeCount_cons_skip parse tsField f t r rs hv]
      | bool c =>
        have hv : validInRange parse tsField f t r = false := by
          unfold validInRange; rw [hts]
        rw [countStep_ok_skip parse tsField groupField b f t ranges st r hv
          (by intro s hs; rw [hts] at hs; cases hs)] at h
        obtain ⟨h1, h2, h3, h4⟩ := ih st st' h (fun r' hr' => hsub r' (List.mem_cons_of_mem _ hr'))
        refine ⟨h1, h2, fun k g => ?_, ?_⟩
        · rw [h3 k g, matchCount_cons_skip parse tsField groupField b f t r rs k g hv]
        · rw [h4, inRangeCount_cons_skip parse tsField f t r rs hv]
      | str s =>
        cases hp : parse s with
        | none =>
          exfalso
          have hbad : countStep parse tsField groupField b f t ranges st r =
              Except.error "Invalid time value" := by
            unfold countStep; simp only [hts, hp]
          rw [hbad] at h
          cases h
        | some d =>
          by_cases hd : d < f ∨ t ≤ d
          · have hv : validInRange parse tsField f t r = false := by
              unfold validInRange
              simp only [hts, hp]
              simp only [Bool.and_eq_false_iff, decide_eq_false_iff_not]
              omega
            rw [countStep_ok_skip parse tsField groupField b f t ranges st r hv
              (by intro s' hs'; rw [hts] at hs'; cases hs'; rw [hp]; rfl)] at h
            obtain ⟨h1, h2, h3, h4⟩ :=
              ih st st' h (fun r' hr' => hsub r' (List.mem_cons_of_mem _ hr'))
            refine ⟨h1, h2, fun k g => ?_, ?_⟩
            · rw [h3 k g, matchCount_cons_skip parse tsField groupField b f t r rs k g hv]
            · rw [h4, inRangeCount_cons_skip parse tsField f t r rs hv]
          · have hgk : groupKeyOf r groupField ∈ st.groupSet :=
              hsub r (List.mem_cons_self r rs)
            rw [countStep_ok_count parse tsField groupField b f t ranges st r s d
              hts hp hd hgk] at h
            set K : Int × String := (floorToBucket d b, groupKeyOf r groupField) with hK
            set st1 : AggState :=
              { st with
                counts := mapSet st.counts K (mapGetD st.counts K + 1)
                totalCount := st.totalCount + 1 } with hst1
            have hsub1 : ∀ r' ∈ rs, groupKeyOf r' groupField ∈ st1.groupSet := by
              intro r' hr'
              exact hsub r' (List.mem_cons_of_mem _ hr')
            obtain ⟨h1, h2, h3, h4⟩ := ih st1 st' h hsub1
            have hv : validInRange parse tsField f t r = true :=
              validInRange_true_shape parse tsField f t r s d hts hp hd
            have hrb : recordBucket parse tsField b r = floorToBucket d b :=
              recordBucket_shape parse tsField b r s d hts hp
            refine ⟨h1, h2, fun k g => ?_, ?_⟩
            · rw [h3 k g]
              rw [matchCount_cons_count parse tsField groupField b f t r rs k g hv]
              have hst1c : mapGetD st1.counts (k, g) =
                  if (k, g) = K then mapGetD st.counts K + 1 else mapGetD st.counts (k, g) := by
                rw [hst1]
                exact mapGetD_mapSet st.counts K (k, g) _
              rw [hst1c, hrb]
              by_cases hkg : (k, g) = K
              · rw [if_pos hkg]
                rw [hK] at hkg
                have hk1 : floorToBucket d b = k := by
                  have := congrArg Prod.fst hkg; simpa using this.symm
                have hk2 : groupKeyOf r groupField = g := by
                  have := congrArg Prod.snd hkg; simpa using this.symm
                rw [if_pos ⟨hk1, hk2⟩, hK, hk1, hk2]
                omega
              · rw [if_neg hkg]
                have hne : ¬(floorToBucket d b = k ∧ groupKeyOf r groupField = g) := by
                  intro hcon
                  exact hkg (by rw [hK, hcon.1, hcon.2])
                rw [if_neg hne]
                omega
            · have htc : st1.totalCount = st.totalCount + 1 := rfl
              rw [h4, inRangeCount_cons_count parse tsField f t r rs hv, htc]
              omega

theorem countLoop_ok_of_wf (parse : String → Option Int) (tsField groupField : String)
    (b : TimeBucket) (f t : Int) (ranges : List (Int × Int)) :
    ∀ (rest : List Record) (st : AggState),
      (∀ r ∈ rest, ∀ s, getField r tsField = some (JsValue.str s) → (parse s).isSome) →
      (∀ r ∈ rest, groupKeyOf r groupField ∈ st.groupSet) →
      ∃ st', countLoop parse tsField groupField b f t ranges st rest = Except.ok st' := by
  intro rest
  induction rest with
  | nil => intro st _ _; exact ⟨st, rfl⟩
  | cons r rs ih =>
    intro st hwf hsub
    simp only [countLoop]
    have hwf1 : ∀ s, getField r tsField = some (JsValue.str s) → (parse s).isSome :=
      hwf r (List.mem_cons_self r rs)
    cases hts : getField r tsField with
    | none =>
      rw [countStep_ok_skip parse tsField groupField b f t ranges st r
        (by unfold validInRange; rw [hts]) (by intro s hs; rw [hts] at hs; cases hs)]
      exact ih st (fun r' h' => hwf r' (List.mem_cons_of_mem _ h'))
        (fun r' h' => hsub r' (List.mem_cons_of_mem _ h'))
    | some v =>
      cases v with
      | num n =>
        rw [countStep_ok_skip parse tsField groupField b f t ranges st r
          (by unfold validInRange; rw [hts]) (by intro s hs; rw [hts] at hs; cases hs)]
        exact ih st (fun r' h' => hwf r' (List.mem_cons_of_mem _ h'))
          (fun r' h' => hsub r' (List.mem_cons_of_mem _ h'))
      | bool c =>
        rw [countStep_ok_skip parse tsField groupField b f t ranges st r
          (by unfold validInRange; rw [hts]) (by intro s hs; rw [hts] at hs; cases hs)]
        exact ih st (fun r' h' => hwf r' (List.mem_cons_of_mem _ h'))
          (fun r' h' => hsub r' (List.mem_cons_of_mem _ h'))
      | str s =>
        cases hp : parse s with
        | none =>
          exfalso
          have := hwf1 s hts
          rw [hp] at this
          simp at this
        | some d =>
          by_cases hd : d < f ∨ t ≤ d
          · have hv : validInRange parse tsField f t r = false := by
              unfold validInRange
              simp only [hts, hp]
              simp only [Bool.and_eq_false_iff, decide_eq_false_iff_not]
              omega
            rw [countStep_ok_skip parse tsField groupField b f t ranges st r hv
              (by intro s' hs'; rw [hts] at hs'; cases hs'; rw [hp]; rfl)]
            exact ih st (fun r' h' => hwf r' (List.mem_cons_of_mem _ h'))
              (fun r' h' => hsub r' (List.mem_cons_of_mem _ h'))
          · have hgk : groupKeyOf r groupField ∈ st.groupSet :=
              hsub r (List.mem_cons_self r rs)
            rw [countStep_ok_count parse tsField groupField b f t ranges st r s d
              hts hp hd hgk]
            exact ih _ (fun r' h' => hwf r' (List.mem_cons_of_mem _ h'))
              (fun r' h' => hsub r' (List.mem_cons_of_mem _ h'))

theorem flattenCells_eq (ranges : List (Int × Int)) (groups : List String) (m : CountMap)
    (c : Int → String → Nat) (hm : ∀ k g, mapGetD m (k, g) = c k g) :
    flattenCells ranges groups m = ranges.flatMap fun rg =>
      groups.map fun g =>
        { bucketStart := rg.1, bucketEnd := rg.2, group := g, count := c rg.1 g } := by
  unfold flattenCells
  congr 1
  funext rg
  congr 1
  funext g
  rw [hm]

theorem except_map_ok {α β : Type} (F : α → β) (e : Except String α) (res : β)
    (h : e.map F = Except.ok res) : ∃ a, e = Except.ok a ∧ res = F a := by
  cases e with
  | error err => simp [Except.map] at h
  | ok a =>
    refine ⟨a, rfl, ?_⟩
    simp [Except.map] at h
    exact h.symm

theorem aggregate_ok_spec (parse : String → Option Int) (records : List Record)
    (tsField groupField : String) (b : TimeBucket) (f t : Int) (res : AggResult)
    (h : aggregateBucketedCounts parse records tsField groupField b f t = Except.ok res) :
    res.groups = List.insertionSort (fun a c => jsStrLe a c = true) (seedSet records groupField) ∧
    res.totalCount = inRangeCount parse tsField f t records ∧
    res.buckets = (generateBucketRanges f t b).flatMap (fun rg =>
      res.groups.map fun g =>
        { bucketStart := rg.1, bucketEnd := rg.2, group := g,
          count := matchCount parse tsField groupField b f t records rg.1 g }) := by
  unfold aggregateBucketedCounts at h
  obtain ⟨st, hl, hres⟩ := except_map_ok _ _ _ h
  obtain ⟨h1, h2, h3, h4⟩ := countLoop_ok_spec parse tsField groupField b f t
    (generateBucketRanges f t b) records _ st hl
    (by
      intro r hr
      exact (seedSet_mem records groupField (groupKeyOf r groupField)).mpr ⟨r, hr, rfl⟩)
  subst hres
  refine ⟨h2, by simpa using h4, ?_⟩
  simp only
  rw [h2]
  apply flattenCells_eq
  intro k g
  rw [h3 k g]
  rw [skeleton_getD]
  simp

/-! ## Counting lemmas -/

theorem sum_map_const_nat {α : Type} (l : List α) (n : Nat) :
    (l.map fun _ => n).sum = l.length * n := by
  induction l with
  | nil => simp
  | cons a l ih =>
    simp only [List.map_cons, List.sum_cons, List.length_cons, ih]
    ring

theorem sum_map_add_nat {α : Type} (l : List α) (F G : α → Nat) :
    (l.map fun a => F a + G a).sum = (l.map F).sum + (l.map G).sum := by
  induction l with
  | nil => rfl
  | cons a l ih =>
    simp only [List.map_cons, List.sum_cons, ih]
    omega

theorem sum_indicator_zero {K : Type} [DecidableEq K] (L : List K) (a : K) (h : a ∉ L) :
    (L.map fun k => if a = k then (1 : Nat) else 0).sum = 0 := by
  induction L with
  | nil => rfl
  | cons x xs ih =>
    simp only [List.map_cons, List.sum_cons]
    rw [if_neg (by intro hax; subst hax; exact h (List.mem_cons_self _ _))]
    rw [ih (fun hx => h (List.mem_cons_of_mem _ hx))]

theorem sum_indicator_one {K : Type} [DecidableEq K] (L : List K) (a : K)
    (hnd : L.Nodup) (ha : a ∈ L) :
    (L.map fun k => if a = k then (1 : Nat) else 0).sum = 1 := by
  induction L with
  | nil => cases ha
  | cons x xs ih =>
    simp only [List.map_cons, List.sum_cons]
    rcases List.mem_cons.mp ha with rfl | hx
    · rw [if_pos rfl, sum_indicator_zero xs a (List.nodup_cons.mp hnd).1]
    · rw [if_neg (by rintro rfl; exact (List.nodup_cons.mp hnd).1 hx)]
      rw [ih (List.nodup_cons.mp hnd).2 hx]

theorem grid_count_sum {K : Type} [DecidableEq K] (key : Record → K) (P : Record → Bool)
    (L : List K) (hnd : L.Nodup) :
    ∀ (records : List Record), (∀ r ∈ records, P r = true → key r ∈ L) →
      (L.map fun k => (records.filter fun r => P r && decide (key r = k)).length).sum
        = (records.filter P).length := by
  intro records
  induction records with
  | nil => intro _; simp
  | cons r rs ih =>
    intro hm
    have hstep : ∀ k : K, ((r :: rs).filter fun r' => P r' && decide (key r' = k)).length
        = (if P r = true ∧ key r = k then 1 else 0)
          + (rs.filter fun r' => P r' && decide (key r' = k)).length := by
      intro k
      rw [List.filter_cons]
      by_cases h : P r = true ∧ key r = k
      · rw [if_pos (by simp [h.1, h.2]), if_pos h]
        simp [Nat.add_comm]
      · rw [if_neg (by simp only [Bool.and_eq_true, decide_eq_true_eq]; exact h), if_neg h]
        simp
    have hmap : (L.map fun k => ((r :: rs).filter fun r' => P r' && decide (key r' = k)).length)
        = L.map fun k => (if P r = true ∧ key r = k then 1 else 0)
            + (rs.filter fun r' => P r' && decide (key r' = k)).length := by
      apply List.map_congr_left
      intro k _
      exact hstep k
    rw [hmap, sum_map_add_nat,
      ih (fun r' h' hp => hm r' (List.mem_cons_of_mem _ h') hp), List.filter_cons]
    by_cases hP : P r = true
    · have hind : (L.map fun k => if P r = true ∧ key r = k then (1 : Nat) else 0)
          = L.map fun k => if key r = k then (1 : Nat) else 0 := by
        apply List.map_congr_left
        intro k _
        by_cases hk : key r = k
        · simp [hP, hk]
        · simp [hk]
      rw [hind, sum_indicator_one L (key r) hnd (hm r (List.mem_cons_self r rs) hP), if_pos hP]
      simp [Nat.add_comm]
    · have hind : (L.map fun k => if P r = true ∧ key r = k then (1 : Nat) else 0)
          = L.map fun _ => (0 : Nat) := by
        apply List.map_congr_left
        intro k _
        simp [hP]
      rw [hind, if_neg hP, sum_map_const_nat]
      simp

theorem grid_nodup (ranges : List (Int × Int)) (groups : List String)
    (hr : List.Pairwise (fun p q : Int × Int => p.1 < q.1) ranges) (hg : groups.Nodup) :
    (ranges.flatMap fun rg => groups.map fun g => (rg.1, g)).Nodup := by
  rw [List.nodup_flatMap]
  constructor
  · intro rg _
    exact hg.map (fun g g' hgg => by simpa using congrArg Prod.snd hgg)
  · apply hr.imp
    intro p q hpq
    intro x hx hx'
    simp only [List.mem_map] at hx hx'
    obtain ⟨g1, _, rfl⟩ := hx
    obtain ⟨g2, _, h2⟩ := hx'
    have := congrArg Prod.fst h2
    simp only at this
    omega

theorem grid_mem (ranges : List (Int × Int)) (groups : List String) (k : Int) (g : String)
    (hk : ∃ rg ∈ ranges, rg.1 = k) (hg : g ∈ groups) :
    (k, g) ∈ ranges.flatMap fun rg => groups.map fun g => (rg.1, g) := by
  obtain ⟨rg, hrg, rfl⟩ := hk
  rw [List.mem_flatMap]
  exact ⟨rg, hrg, List.mem_map.mpr ⟨g, hg, rfl⟩⟩

theorem cells_sum_eq (ranges : List (Int × Int)) (groups : List String)
    (c : Int → String → Nat) :
    ((ranges.flatMap fun rg => groups.map fun g =>
        ({ bucketStart := rg.1, bucketEnd := rg.2, group := g,
           count := c rg.1 g } : BucketedCount)).map BucketedCount.count).sum
      = ((ranges.flatMap fun rg => groups.map fun g => (rg.1, g)).map
          fun k => c k.1 k.2).sum := by
  induction ranges with
  | nil => rfl
  | cons rg rgs ih =>
    simp only [List.flatMap_cons, List.map_append, List.sum_append, List.map_map]
    rw [ih]
    congr 1

theorem matchCount_key_form (parse : String → Option Int) (tsField groupField : String)
    (b : TimeBucket) (f t : Int) (records : List Record) (k : Int) (g : String) :
    matchCount parse tsField groupField b f t records k g =
      (records.filter fun r => validInRange parse tsField f t r &&
        decide (((recordBucket parse tsField b r, groupKeyOf r groupField) : Int × String)
          = (k, g))).length := by
  unfold matchCount
  congr 1
  apply List.filter_congr
  intro r _
  by_cases h1 : recordBucket parse tsField b r = k <;>
    by_cases h2 : groupKeyOf r groupField = g <;> simp [h1, h2]

theorem validInRange_elim (parse : String → Option Int) (tsField : String) (f t : Int)
    (r : Record) (hv : validInRange parse tsField f t r = true) :
    ∃ s d, getField r tsField = some (JsValue.str s) ∧ parse s = some d ∧ f ≤ d ∧ d < t := by
  unfold validInRange at hv
  cases hts : getField r tsField with
  | none => rw [hts] at hv; cases hv
  | some v =>
    cases v with
    | num n => rw [hts] at hv; cases hv
    | bool c => rw [hts] at hv; cases hv
    | str s =>
      cases hp : parse s with
      | none =>
        simp only [hts, hp] at hv
        cases hv
      | some d =>
        simp only [hts, hp, Bool.and_eq_true, decide_eq_true_eq] at hv
        exact ⟨s, d, rfl, hp, hv.1, hv.2⟩

theorem flatMap_const_length {α β γ : Type} (l : List α) (L : List β) (F : α → β → γ) :
    (l.flatMap fun a => L.map (F a)).length = l.length * L.length := by
  induction l with
  | nil => simp
  | cons a l ih =>
    simp only [List.flatMap_cons, List.length_append, List.length_map, List.length_cons, ih]
    ring

/-! ## Error propagation -/

theorem countStep_error_elim (parse : String → Option Int) (tsField groupField : String)
    (b : TimeBucket) (f t : Int) (ranges : List (Int × Int)) (st : AggState) (r : Record)
    (e : String) (h : countStep parse tsField groupField b f t ranges st r = Except.error e) :
    ∃ s, getField r tsField = some (JsValue.str s) ∧ parse s = none := by
  unfold countStep at h
  cases hts : getField r tsField with
  | none => rw [hts] at h; cases h
  | some v =>
    cases v with
    | num n => rw [hts] at h; cases h
    | bool c => rw [hts] at h; cases h
    | str s =>
      cases hp : parse s with
      | some d =>
        simp only [hts, hp] at h
        by_cases hd : d < f ∨ t ≤ d
        · rw [if_pos hd] at h; cases h
        · rw [if_neg hd] at h; cases h
      | none => exact ⟨s, rfl, hp⟩

theorem countLoop_error_elim (parse : String → Option Int) (tsField groupField : String)
    (b : TimeBucket) (f t : Int) (ranges : List (Int × Int)) :
    ∀ (rest : List Record) (st : AggState) (e : String),
      countLoop parse tsField groupField b f t ranges st rest = Except.error e →
      ∃ r ∈ rest, ∃ s, getField r tsField = some (JsValue.str s) ∧ parse s = none := by
  intro rest
  induction rest with
  | nil => intro st e h; cases h
  | cons r rs ih =>
    intro st e h
    simp only [countLoop] at h
    cases hstep : countStep parse tsField groupField b f t ranges st r with
    | error e' =>
      obtain ⟨s, hts, hp⟩ :=
        countStep_error_elim parse tsField groupField b f t ranges st r e' hstep
      exact ⟨r, List.mem_cons_self r rs, s, hts, hp⟩
    | ok st1 =>
      rw [hstep] at h
      obtain ⟨r', hr', hs⟩ := ih st1 e h
      exact ⟨r', List.mem_cons_of_mem _ hr', hs⟩

theorem except_map_error {α β : Type} (F : α → β) (e : Except String α) (msg : String)
    (h : e.map F = Except.error msg) : e = Except.error msg := by
  cases e with
  | ok a => simp [Except.map] at h
  | error err => simpa [Except.map] using h

theorem aggregate_error_elim (parse : String → Option Int) (records : List Record)
    (tsField groupField : String) (b : TimeBucket) (f t : Int) (e : String)
    (h : aggregateBucketedCounts parse records tsField groupField b f t = Except.error e) :
    ∃ r ∈ records, ∃ s, getField r tsField = some (JsValue.str s) ∧ parse s = none := by
  unfold aggregateBucketedCounts at h
  have hcl := except_map_error _ _ _ h
  exact countLoop_error_elim parse tsField groupField b f t _ records _ e hcl

theorem aggregate_ok_of_wf (parse : String → Option Int) (records : List Record)
    (tsField groupField : String) (b : TimeBucket) (f t : Int)
    (hwf : ∀ r ∈ records, ∀ s, getField r tsField = some (JsValue.str s) → (parse s).isSome) :
    ∃ res, aggregateBucketedCounts parse records tsField groupField b f t = Except.ok res := by
  cases haggr : aggregateBucketedCounts parse records tsField groupField b f t with
  | ok res => exact ⟨res, rfl⟩
  | error e =>
    obtain ⟨r, hr, s, hts, hp⟩ :=
      aggregate_error_elim parse records tsField groupField b f t e haggr
    have := hwf r hr s hts
    rw [hp] at this
    simp at this

/-! ## Claim theorems -/

/-- Claim C1: for every aggregation call that returns, the buckets
array holds exactly (number of enumerated buckets in the range) ×
(number of distinct groups in the returned group list) cells, one cell
for every (bucket, group) pair — no pair is omitted. -/
theorem aggregate_density (parse : String → Option Int) (records : List Record)
    (tsField groupField : String) (b : TimeBucket) (f t : Int) (res : AggResult)
    (h : aggregateBucketedCounts parse records tsField groupField b f t = Except.ok res) :
    res.groups.Nodup ∧
    res.buckets.length = (generateBucketRanges f t b).length * res.groups.length ∧
    ∀ rg ∈ generateBucketRanges f t b, ∀ g ∈ res.groups,
      ∃ cell ∈ res.buckets,
        cell.bucketStart = rg.1 ∧ cell.bucketEnd = rg.2 ∧ cell.group = g := by
  obtain ⟨hg, _, hb⟩ :=
    aggregate_ok_spec parse records tsField groupField b f t res h
  refine ⟨?_, ?_, ?_⟩
  · rw [hg]
    exact (List.perm_insertionSort _ _).nodup_iff.mpr (seedSet_nodup records groupField)
  · rw [hb]
    exact flatMap_const_length _ _ _
  · intro rg hrg g hgm
    rw [hb]
    exact ⟨_, List.mem_flatMap.mpr ⟨rg, hrg, List.mem_map.mpr ⟨g, hgm, rfl⟩⟩, rfl, rfl, rfl⟩

/-- Claim C2: for every aggregation call that returns, `totalCount`
equals the sum of all cell counts, and equals the number of input
records whose timestamp field holds a valid timestamp falling within
the half-open query range. -/
theorem aggregate_total_conservation (parse : String → Option Int) (records : List Record)
    (tsField groupField : String) (b : TimeBucket) (f t : Int) (res : AggResult)
    (h : aggregateBucketedCounts parse records tsField groupField b f t = Except.ok res) :
    res.totalCount = (res.buckets.map BucketedCount.count).sum ∧
    res.totalCount = inRangeCount parse tsField f t records := by
  obtain ⟨hg, ht, hb⟩ :=
    aggregate_ok_spec parse records tsField groupField b f t res h
  refine ⟨?_, ht⟩
  have hgnodup : res.groups.Nodup := by
    rw [hg]
    exact (List.perm_insertionSort _ _).nodup_iff.mpr (seedSet_nodup records groupField)
  have hnd : ((generateBucketRanges f t b).flatMap fun rg =>
      res.groups.map fun g => (rg.1, g)).Nodup :=
    grid_nodup _ _ (generateBucketRanges_pairwise f t b) hgnodup
  have hmem : ∀ r ∈ records, validInRange parse tsField f t r = true →
      ((recordBucket parse tsField b r, groupKeyOf r groupField) : Int × String) ∈
        (generateBucketRanges f t b).flatMap fun rg => res.groups.map fun g => (rg.1, g) := by
    intro r hr hv
    obtain ⟨s, d, hts, hp, hfd, hdt⟩ := validInRange_elim parse tsField f t r hv
    rw [recordBucket_shape parse tsField b r s d hts hp]
    apply grid_mem
    · exact generateBucketRanges_mem_start f t b d hfd hdt
    · rw [hg]
      exact (List.perm_insertionSort _ _).mem_iff.mpr
        ((seedSet_mem records groupField _).mpr ⟨r, hr, rfl⟩)
  rw [hb, cells_sum_eq, ht]
  have hmap : (((generateBucketRanges f t b).flatMap fun rg =>
        res.groups.map fun g => (rg.1, g)).map
      fun k => matchCount parse tsField groupField b f t records k.1 k.2)
      = ((generateBucketRanges f t b).flatMap fun rg =>
        res.groups.map fun g => (rg.1, g)).map
          fun k => (records.filter fun r => validInRange parse tsField f t r &&
            decide (((recordBucket parse tsField b r, groupKeyOf r groupField) : Int × String)
              = k)).length := by
    apply List.map_congr_left
    intro k _
    rw [matchCount_key_form]
  rw [hmap]
  rw [grid_count_sum (fun r => (recordBucket parse tsField b r, groupKeyOf r groupField))
    (validInRange parse tsField f t) _ hnd records hmem]
  rfl

/-- Claim C8: flooring an instant to a bucket boundary is idempotent
for every granularity. -/
theorem floor_bucket_idempotent (t : Int) (b : TimeBucket) :
    floorToBucket (floorToBucket t b) b = floorToBucket t b :=
  floorToBucket_floor t b

/-- Claim C7: for `from < to`, the enumerated buckets are contiguous
and non-overlapping — the end of bucket n is the start of bucket n+1,
each bucket is a proper interval, the first bucket's start is at most
`from`, and the last bucket's end covers the floor of `to` or
beyond. -/
theorem bucket_coverage (f t : Int) (b : TimeBucket) (h : f < t) :
    generateBucketRanges f t b ≠ [] ∧
    List.Chain' (fun p q : Int × Int => p.2 = q.1) (generateBucketRanges f t b) ∧
    (∀ p ∈ generateBucketRanges f t b, p.1 < p.2) ∧
    (∃ hd, (generateBucketRanges f t b).head? = some hd ∧ hd.1 ≤ f) ∧
    (∃ lastp, (generateBucketRanges f t b).getLast? = some lastp ∧
      floorToBucket t b ≤ lastp.2) := by
  have hf : floorToBucket f b ≤ f := floorToBucket_le f b
  have hc : floorToBucket f b < t := by omega
  have hcons : generateBucketRanges f t b =
      (floorToBucket f b, advanceBucket (floorToBucket f b) b) ::
        generateBucketRangesAux t b ((t - floorToBucket f b).toNat)
          (advanceBucket (floorToBucket f b) b) := by
    unfold generateBucketRanges
    simp only [generateBucketRangesAux, if_pos hc]
  refine ⟨?_, generateBucketRanges_chain f t b, ?_, ?_, ?_⟩
  · rw [hcons]; exact List.cons_ne_nil _ _
  · intro p hp
    obtain ⟨_, _, hpe⟩ := generateBucketRanges_mem f t b p hp
    rw [hpe]
    exact lt_advanceBucket p.1 b
  · rw [hcons]
    exact ⟨_, rfl, hf⟩
  · obtain ⟨p, hp, hpt⟩ := generateBucketRangesAux_getLast t b
      ((t - floorToBucket f b).toNat + 1) (floorToBucket f b) (Nat.lt_succ_self _) hc
    refine ⟨p, hp, ?_⟩
    have := floorToBucket_le t b
    omega

/-- Claim C9: the group columns are determined by the full input
record set: a group all of whose records fail the range check still
appears in the returned group list and as an all-zero column across
every enumerated bucket. -/
theorem seed_groups_independent_of_range (parse : String → Option Int)
    (records : List Record) (tsField groupField : String) (b : TimeBucket) (f t : Int)
    (res : AggResult) (r : Record)
    (h : aggregateBucketedCounts parse records tsField groupField b f t = Except.ok res)
    (hr : r ∈ records)
    (hout : ∀ r' ∈ records, groupKeyOf r' groupField = groupKeyOf r groupField →
      validInRange parse tsField f t r' = false) :
    groupKeyOf r groupField ∈ res.groups ∧
    (∀ cell ∈ res.buckets, cell.group = groupKeyOf r groupField → cell.count = 0) ∧
    (∀ rg ∈ generateBucketRanges f t b, ∃ cell ∈ res.buckets,
      cell.bucketStart = rg.1 ∧ cell.group = groupKeyOf r groupField ∧ cell.count = 0) := by
  obtain ⟨hg, _, hb⟩ :=
    aggregate_ok_spec parse records tsField groupField b f t res h
  have hmem : groupKeyOf r groupField ∈ res.groups := by
    rw [hg]
    exact (List.perm_insertionSort _ _).mem_iff.mpr
      ((seedSet_mem records groupField _).mpr ⟨r, hr, rfl⟩)
  have hzero : ∀ k, matchCount parse tsField groupField b f t records k
      (groupKeyOf r groupField) = 0 := by
    intro k
    unfold matchCount
    rw [List.length_eq_zero]
    rw [List.filter_eq_nil_iff]
    intro r' hr'
    by_cases hgk : groupKeyOf r' groupField = groupKeyOf r groupField
    · simp [hout r' hr' hgk]
    · simp [hgk]
  refine ⟨hmem, ?_, ?_⟩
  · intro cell hc hcg
    rw [hb] at hc
    rw [List.mem_flatMap] at hc
    obtain ⟨rg, hrg, hc⟩ := hc
    rw [List.mem_map] at hc
    obtain ⟨g, hgm, rfl⟩ := hc
    simp only at hcg ⊢
    rw [hcg]
    exact hzero rg.1
  · intro rg hrg
    rw [hb]
    exact ⟨_, List.mem_flatMap.mpr ⟨rg, hrg, List.mem_map.mpr ⟨_, hmem, rfl⟩⟩,
      rfl, rfl, hzero rg.1⟩

/-- Claim C4 (amended): if `from == to` *and `from` lies on a bucket
boundary*, the enumeration is empty and — provided every string-valued
timestamp in the input parses — the aggregation returns zero cells and
`totalCount = 0`.  Without the boundary condition the enumeration
holds one bucket (the cursor starts at `floorToBucket from < to`), and
a malformed string timestamp raises an error instead of returning. -/
theorem aggregate_empty_range (parse : String → Option Int) (records : List Record)
    (tsField groupField : String) (b : TimeBucket) (f t : Int)
    (hft : f = t) (hbd : floorToBucket f b = f)
    (hwf : ∀ r ∈ records, ∀ s, getField r tsField = some (JsValue.str s) → (parse s).isSome) :
    generateBucketRanges f t b = [] ∧
    ∃ res, aggregateBucketedCounts parse records tsField groupField b f t = Except.ok res ∧
      res.buckets = [] ∧ res.totalCount = 0 := by
  have hnil : generateBucketRanges f t b = [] :=
    generateBucketRanges_eq_nil f t b (by omega)
  obtain ⟨res, hres⟩ :=
    aggregate_ok_of_wf parse records tsField groupField b f t hwf
  obtain ⟨hg, ht, hb⟩ :=
    aggregate_ok_spec parse records tsField groupField b f t res hres
  refine ⟨hnil, res, hres, ?_, ?_⟩
  · rw [hb, hnil]
    rfl
  · rw [ht]
    unfold inRangeCount
    rw [List.length_eq_zero, List.filter_eq_nil_iff]
    intro r' hr'
    by_cases hv : validInRange parse tsField f t r' = true
    · obtain ⟨s, d, _, _, hfd, hdt⟩ := validInRange_elim parse tsField f t r' hv
      omega
    · simpa using hv

/-- Claim C10: supplying an identifier filter as an empty list yields
exactly the same result as omitting the filter: no equality predicate
is pushed to the reader and no in-memory filtering is applied, for
both query families and all four identifier filters. -/
theorem empty_filter_same_as_omitted (reader : String → NillionFilter → List Record)
    (now : Int) (parse : String → Option Int)
    (q : QuestionnaireResponseStatsQuery) (qb : BinaryUploadStatsQuery) :
    questionnaireResponses reader now parse { q with applicationIds := some [] } =
      questionnaireResponses reader now parse { q with applicationIds := none } ∧
    questionnaireResponses reader now parse { q with publisherIds := some [] } =
      questionnaireResponses reader now parse { q with publisherIds := none } ∧
    binaryUploads reader now parse { qb with uploaderDids := some [] } =
      binaryUploads reader now parse { qb with uploaderDids := none } ∧
    binaryUploads reader now parse { qb with contentTypes := some [] } =
      binaryUploads reader now parse { qb with contentTypes := none } :=
  ⟨rfl, rfl, rfl, rfl⟩

/-- Claim C6: when an identifier filter carries two or more values,
the filter handed to the reader contains no equality predicate for
that field, and the post-fetch in-memory filter keeps only records
whose field value is a member of the supplied value set — for both
query families and all four identifier filters. -/
theorem multi_value_filter_fallback :
    (∀ (f t : Int) (q : QuestionnaireResponseStatsQuery) (ids : List String),
      q.applicationIds = some ids → 2 ≤ ids.length →
      (∀ v, ("application_id", v) ∉ buildQuestionnaireFilter f t q) ∧
      ∀ (records : List Record),
        ∀ r ∈ inMemoryIdFilter q.applicationIds "application_id" records,
          ∃ s, getField r "application_id" = some (JsValue.str s) ∧ s ∈ ids) ∧
    (∀ (f t : Int) (q : QuestionnaireResponseStatsQuery) (ids : List String),
      q.publisherIds = some ids → 2 ≤ ids.length →
      (∀ v, ("publisher_id", v) ∉ buildQuestionnaireFilter f t q) ∧
      ∀ (records : List Record),
        ∀ r ∈ inMemoryIdFilter q.publisherIds "publisher_id" records,
          ∃ s, getField r "publisher_id" = some (JsValue.str s) ∧ s ∈ ids) ∧
    (∀ (f t : Int) (q : BinaryUploadStatsQuery) (ids : List String),
      q.uploaderDids = some ids → 2 ≤ ids.length →
      (∀ v, ("uploader_did", v) ∉ buildBinaryFilter f t q) ∧
      ∀ (records : List Record),
        ∀ r ∈ inMemoryIdFilter q.uploaderDids "uploader_did" records,
          ∃ s, getField r "uploader_did" = some (JsValue.str s) ∧ s ∈ ids) ∧
    (∀ (f t : Int) (q : BinaryUploadStatsQuery) (ids : List String),
      q.contentTypes = some ids → 2 ≤ ids.length →
      (∀ v, ("content_type", v) ∉ buildBinaryFilter f t q) ∧
      ∀ (records : List Record),
        ∀ r ∈ inMemoryIdFilter q.contentTypes "content_type" records,
          ∃ s, getField r "content_type" = some (JsValue.str s) ∧ s ∈ ids) := by
  have hmemf : ∀ (idsOpt : Option (List String)) (field : String) (ids : List String),
      idsOpt = some ids → 2 ≤ ids.length →
      ∀ (records : List Record), ∀ r ∈ inMemoryIdFilter idsOpt field records,
        ∃ s, getField r field = some (JsValue.str s) ∧ s ∈ ids := by
    intro idsOpt field ids hids hlen records r hr
    subst hids
    simp only [inMemoryIdFilter] at hr
    rw [if_pos (by omega)] at hr
    obtain ⟨_, hpred⟩ := List.mem_filter.mp hr
    cases hts : getField r field with
    | none => rw [hts] at hpred; cases hpred
    | some v =>
      cases v with
      | num n => rw [hts] at hpred; cases hpred
      | bool c => rw [hts] at hpred; cases hpred
      | str s =>
        rw [hts] at hpred
        refine ⟨s, rfl, ?_⟩
        simpa using hpred
  refine ⟨?_, ?_, ?_, ?_⟩
  · intro f t q ids hids hlen
    refine ⟨?_, hmemf q.applicationIds "application_id" ids hids hlen⟩
    intro v hv
    unfold buildQuestionnaireFilter at hv
    rw [hids] at hv
    match ids, hlen with
    | a :: c :: rest, _ =>
      rcases hside : q.publisherIds with _ | ⟨_ | ⟨p, _ | prest⟩⟩ <;>
        rw [hside] at hv <;> simp at hv
  · intro f t q ids hids hlen
    refine ⟨?_, hmemf q.publisherIds "publisher_id" ids hids hlen⟩
    intro v hv
    unfold buildQuestionnaireFilter at hv
    rw [hids] at hv
    match ids, hlen with
    | a :: c :: rest, _ =>
      rcases hside : q.applicationIds with _ | ⟨_ | ⟨p, _ | prest⟩⟩ <;>
        rw [hside] at hv <;> simp at hv
  · intro f t q ids hids hlen
    refine ⟨?_, hmemf q.uploaderDids "uploader_did" ids hids hlen⟩
    intro v hv
    unfold buildBinaryFilter at hv
    rw [hids] at hv
    match ids, hlen with
    | a :: c :: rest, _ =>
      rcases hside : q.contentTypes with _ | ⟨_ | ⟨p, _ | prest⟩⟩ <;>
        rw [hside] at hv <;> simp at hv
  · intro f t q ids hids hlen
    refine ⟨?_, hmemf q.contentTypes "content_type" ids hids hlen⟩
    intro v hv
    unfold buildBinaryFilter at hv
    rw [hids] at hv
    match ids, hlen with
    | a :: c :: rest, _ =>
      rcases hside : q.uploaderDids with _ | ⟨_ | ⟨p, _ | prest⟩⟩ <;>
        rw [hside] at hv <;> simp at hv

/-- Claim C5: a stats query with a granularity value outside
hour/day/week, or a group-field value unsupported for the family, is
rejected before any fetch with an error naming the offending value and
the allowed set, and the reader receives zero calls. -/
theorem stats_invalid_params_fail_fast :
    (∀ (reader : String → NillionFilter → List Record) (now : Int)
        (parse : String → Option Int) (args : QuestionnaireStatsArgs) (s : String),
      args.bucket = some s → s ∉ validBuckets →
      runQuestionnaireStats reader now parse args =
        (Except.error ("Invalid bucket \"" ++ s ++ "\". Must be one of: hour, day, week"),
          0)) ∧
    (∀ (reader : String → NillionFilter → List Record) (now : Int)
        (parse : String → Option Int) (args : QuestionnaireStatsArgs) (g : String),
      (∀ s, args.bucket = some s → s ∈ validBuckets) → args.groupBy = some g →
      g ∉ validGroupBys →
      runQuestionnaireStats reader now parse args =
        (Except.error
          ("Invalid groupBy \"" ++ g ++ "\". Must be one of: application_id, publisher_id"),
          0)) := by
  constructor
  · intro reader now parse args s hb hns
    have h1 : s ≠ "hour" := fun hh => hns (by rw [hh]; simp [validBuckets])
    have h2 : s ≠ "day" := fun hh => hns (by rw [hh]; simp [validBuckets])
    have h3 : s ≠ "week" := fun hh => hns (by rw [hh]; simp [validBuckets])
    have hpt : parseTimeBucket s = none := by
      unfold parseTimeBucket
      rw [if_neg h1, if_neg h2, if_neg h3]
    have hpa : parseArgs now args =
        Except.error ("Invalid bucket \"" ++ s ++ "\". Must be one of: hour, day, week") := by
      simp only [parseArgs, hb, hpt]
      rfl
    simp only [runQuestionnaireStats, hpa]
  · intro reader now parse args g hvb hg hng
    have hpa : parseArgs now args =
        Except.error
          ("Invalid groupBy \"" ++ g ++ "\". Must be one of: application_id, publisher_id") := by
      cases hb : args.bucket with
      | none =>
        simp only [parseArgs, hb, hg, if_neg hng]
        rfl
      | some s =>
        have hs := hvb s hb
        simp only [validBuckets, List.mem_cons, List.mem_singleton,
          List.not_mem_nil, or_false] at hs
        rcases hs with rfl | rfl | rfl
        · have e1 : parseTimeBucket "hour" = some TimeBucket.hour := rfl
          simp only [parseArgs, hb, hg, e1, if_neg hng]
          rfl
        · have e1 : parseTimeBucket "day" = some TimeBucket.day := rfl
          simp only [parseArgs, hb, hg, e1, if_neg hng]
          rfl
        · have e1 : parseTimeBucket "week" = some TimeBucket.week := rfl
          simp only [parseArgs, hb, hg, e1, if_neg hng]
          rfl
    simp only [runQuestionnaireStats, hpa]

/-- Claim C3 (code bug): a record whose string timestamp fails to
parse is *not* silently excluded — its NaN time value fails both
range-check comparisons, so the record survives to `bucketKey`, whose
`toISOString` on the Invalid Date throws `RangeError: Invalid time
value`; the aggregation raises instead of completing. -/
theorem malformed_timestamp_raises :
    aggregateBucketedCounts sampleParse
      [[("submitted_at", JsValue.str "not-a-date"),
        ("application_id", JsValue.str "app-1")]]
      "submitted_at" "application_id" TimeBucket.day 1748736000000 1748908800000
      = Except.error "Invalid time value" := rfl

/-- Claim C4 counterexample: for `from == to` at 2025-06-01T10:00Z
(not a day boundary) the enumeration holds one bucket, and the
aggregation returns one (bucket × group) cell — not zero buckets and
zero cells. -/
theorem from_eq_to_counterexample :
    generateBucketRanges 1748772000000 1748772000000 TimeBucket.day
      = [(1748736000000, 1748822400000)] ∧
    aggregateBucketedCounts sampleParse [[("application_id", JsValue.str "g1")]]
      "submitted_at" "application_id" TimeBucket.day 1748772000000 1748772000000
      = Except.ok { buckets := [{ bucketStart := 1748736000000,
                                  bucketEnd := 1748822400000,
                                  group := "g1", count := 0 }],
                    groups := ["g1"], totalCount := 0 } :=
  ⟨rfl, rfl⟩

/-! ## Concrete witnesses -/

/-- Witness for C1, spec scenario A: two day buckets, one group, two
cells. -/
theorem aggregate_density_witness :
    ([{ bucketStart := 1748736000000, bucketEnd := 1748822400000,
        group := "g1", count := 1 },
      { bucketStart := 1748822400000, bucketEnd := 1748908800000,
        group := "g1", count := 1 }] : List BucketedCount).length =
      (generateBucketRanges 1748736000000 1748908800000 TimeBucket.day).length *
        (["g1"] : List String).length :=
  (aggregate_density sampleParse
    [[("submitted_at", JsValue.str "2025-06-01T10:00:00.000Z"),
      ("application_id", JsValue.str "g1")],
     [("submitted_at", JsValue.str "2025-06-02T23:00:00.000Z"),
      ("application_id", JsValue.str "g1")]]
    "submitted_at" "application_id" TimeBucket.day 1748736000000 1748908800000
    { buckets := [{ bucketStart := 1748736000000, bucketEnd := 1748822400000,
                    group := "g1", count := 1 },
                  { bucketStart := 1748822400000, bucketEnd := 1748908800000,
                    group := "g1", count := 1 }],
      groups := ["g1"], totalCount := 2 } rfl).2.1

/-- Witness for C2 on the same scenario: `totalCount = 2` equals the
cell-count sum and the in-range record count. -/
theorem aggregate_total_conservation_witness :
    (2 : Nat) = (([{ bucketStart := 1748736000000, bucketEnd := 1748822400000,
                     group := "g1", count := 1 },
                   { bucketStart := 1748822400000, bucketEnd := 1748908800000,
                     group := "g1", count := 1 }] : List BucketedCount).map
        BucketedCount.count).sum ∧
    (2 : Nat) = inRangeCount sampleParse "submitted_at" 1748736000000 1748908800000
      [[("submitted_at", JsValue.str "2025-06-01T10:00:00.000Z"),
        ("application_id", JsValue.str "g1")],
       [("submitted_at", JsValue.str "2025-06-02T23:00:00.000Z"),
        ("application_id", JsValue.str "g1")]] :=
  aggregate_total_conservation sampleParse
    [[("submitted_at", JsValue.str "2025-06-01T10:00:00.000Z"),
      ("application_id", JsValue.str "g1")],
     [("submitted_at", JsValue.str "2025-06-02T23:00:00.000Z"),
      ("application_id", JsValue.str "g1")]]
    "submitted_at" "application_id" TimeBucket.day 1748736000000 1748908800000
    { buckets := [{ bucketStart := 1748736000000, bucketEnd := 1748822400000,
                    group := "g1", count := 1 },
                  { bucketStart := 1748822400000, bucketEnd := 1748908800000,
                    group := "g1", count := 1 }],
      groups := ["g1"], totalCount := 2 } rfl

/-- Witness for C4 (amended): `from == to` on a day boundary, one
parseable record — empty enumeration, no cells, zero total. -/
theorem aggregate_empty_range_witness :
    generateBucketRanges 1748736000000 1748736000000 TimeBucket.day = [] ∧
    ∃ res, aggregateBucketedCounts sampleParse
        [[("submitted_at", JsValue.str "2025-06-01T10:00:00.000Z"),
          ("application_id", JsValue.str "g1")]]
        "submitted_at" "application_id" TimeBucket.day 1748736000000 1748736000000
        = Except.ok res ∧ res.buckets = [] ∧ res.totalCount = 0 :=
  aggregate_empty_range sampleParse
    [[("submitted_at", JsValue.str "2025-06-01T10:00:00.000Z"),
      ("application_id", JsValue.str "g1")]]
    "submitted_at" "application_id" TimeBucket.day 1748736000000 1748736000000
    rfl (by decide)
    (by
      intro r hr s hs
      rw [List.mem_singleton] at hr
      subst hr
      have hs' : some (JsValue.str "2025-06-01T10:00:00.000Z") = some (JsValue.str s) := hs
      injection hs' with h1
      injection h1 with h2
      subst h2
      rfl)

/-- Witness for C5: an invalid bucket and an invalid group-by are both
rejected with zero reader calls. -/
theorem stats_invalid_params_witness :
    runQuestionnaireStats (fun _ _ => []) 0 sampleParse
        ⟨none, none, some "month", none, none, none⟩ =
      (Except.error "Invalid bucket \"month\". Must be one of: hour, day, week", 0) ∧
    runQuestionnaireStats (fun _ _ => []) 0 sampleParse
        ⟨none, none, none, some "bogus", none, none⟩ =
      (Except.error
        "Invalid groupBy \"bogus\". Must be one of: application_id, publisher_id", 0) :=
  ⟨stats_invalid_params_fail_fast.1 (fun _ _ => []) 0 sampleParse
      ⟨none, none, some "month", none, none, none⟩ "month" rfl (by decide),
   stats_invalid_params_fail_fast.2 (fun _ _ => []) 0 sampleParse
      ⟨none, none, none, some "bogus", none, none⟩ "bogus"
      (fun _ h => Option.noConfusion h) rfl (by decide)⟩

/-- Witness for C6: a two-valued `applicationIds` filter pushes no
equality predicate and the in-memory filter keeps only members. -/
theorem multi_value_filter_witness :
    (∀ v, ("application_id", v) ∉
      buildQuestionnaireFilter 1748736000000 1748908800000
        { range := none, bucket := none, groupBy := none,
          applicationIds := some ["app-1", "app-2"], publisherIds := none }) ∧
    (∀ r ∈ inMemoryIdFilter (some ["app-1", "app-2"]) "application_id"
        [[("application_id", JsValue.str "app-1")],
         [("application_id", JsValue.str "zzz")]],
      ∃ s, getField r "application_id" = some (JsValue.str s) ∧ s ∈ ["app-1", "app-2"]) :=
  have h := multi_value_filter_fallback.1 1748736000000 1748908800000
    { range := none, bucket := none, groupBy := none,
      applicationIds := some ["app-1", "app-2"], publisherIds := none }
    ["app-1", "app-2"] rfl (by decide)
  ⟨h.1, fun r hr => h.2
    [[("application_id", JsValue.str "app-1")],
     [("application_id", JsValue.str "zzz")]] r hr⟩

/-- Witness for C7: a one-hour window gives one well-formed bucket. -/
theorem bucket_coverage_witness :
    generateBucketRanges 0 1 TimeBucket.hour ≠ [] ∧
    List.Chain' (fun p q : Int × Int => p.2 = q.1) (generateBucketRanges 0 1 TimeBucket.hour) ∧
    (∀ p ∈ generateBucketRanges 0 1 TimeBucket.hour, p.1 < p.2) ∧
    (∃ hd, (generateBucketRanges 0 1 TimeBucket.hour).head? = some hd ∧ hd.1 ≤ 0) ∧
    (∃ lastp, (generateBucketRanges 0 1 TimeBucket.hour).getLast? = some lastp ∧
      floorToBucket 1 TimeBucket.hour ≤ lastp.2) :=
  bucket_coverage 0 1 TimeBucket.hour (by decide)

/-- Witness for C9: a group whose only record is out of range still
appears as an all-zero column across both buckets. -/
theorem seed_groups_witness :
    ("B" : String) ∈ (["A", "B"] : List String) ∧
    (∀ cell ∈ ([{ bucketStart := 1748736000000, bucketEnd := 1748822400000,
                  group := "A", count := 1 },
                { bucketStart := 1748736000000, bucketEnd := 1748822400000,
                  group := "B", count := 0 },
                { bucketStart := 1748822400000, bucketEnd := 1748908800000,
                  group := "A", count := 0 },
                { bucketStart := 1748822400000, bucketEnd := 1748908800000,
                  group := "B", count := 0 }] : List BucketedCount),
      cell.group = "B" → cell.count = 0) ∧
    (∀ rg ∈ generateBucketRanges 1748736000000 1748908800000 TimeBucket.day,
      ∃ cell ∈ ([{ bucketStart := 1748736000000, bucketEnd := 1748822400000,
                   group := "A", count := 1 },
                 { bucketStart := 1748736000000, bucketEnd := 1748822400000,
                   group := "B", count := 0 },
                 { bucketStart := 1748822400000, bucketEnd := 1748908800000,
                   group := "A", count := 0 },
                 { bucketStart := 1748822400000, bucketEnd := 1748908800000,
                   group := "B", count := 0 }] : List BucketedCount),
        cell.bucketStart = rg.1 ∧ cell.group = "B" ∧ cell.count = 0) :=
  seed_groups_independent_of_range sampleParse
    [[("submitted_at", JsValue.str "2025-06-01T10:00:00.000Z"),
      ("application_id", JsValue.str "A")],
     [("submitted_at", JsValue.str "2025-06-05T12:00:00.000Z"),
      ("application_id", JsValue.str "B")]]
    "submitted_at" "application_id" TimeBucket.day 1748736000000 1748908800000
    { buckets := [{ bucketStart := 1748736000000, bucketEnd := 1748822400000,
                    group := "A", count := 1 },
                  { bucketStart := 1748736000000, bucketEnd := 1748822400000,
                    group := "B", count := 0 },
                  { bucketStart := 1748822400000, bucketEnd := 1748908800000,
                    group := "A", count := 0 },
                  { bucketStart := 1748822400000, bucketEnd := 1748908800000,
                    group := "B", count := 0 }],
      groups := ["A", "B"], totalCount := 1 }
    [("submitted_at", JsValue.str "2025-06-05T12:00:00.000Z"),
     ("application_id", JsValue.str "B")]
    rfl (by decide) (by decide)
